import Mathlib

/-!
# Verification of the PaRSEC CUDA device core (`src/dague/devices/cuda/dev_cuda.c`)

Shallow embedding of the GPU scheduler and data-movement engine of the
repository, together with theorems settling the frozen claims about it.
Machine integers are modelled as `Nat`/`Int`; the single/double precision
load and weight vectors are modelled with exact rationals `ℚ` (the claims
under study are about the control structure and the algebra of the updates,
not about rounding).  Components whose source is not part of the repository
snapshot (the zone allocator, the list priority comparator, the
`DAGUE_GPU_W2R_NB_MOVE_OUT` constant from the missing `dev_cuda.h`) are
modelled from the specification and documented as such at their definition.
-/

/-! ## Device selector (`dague_gpu_get_best_device`, dev_cuda.c lines 1276-1315) -/

/-- One entry of `this_task->function->out[i]`: `none` models a NULL slot;
`write` models `flow_flags & FLOW_ACCESS_WRITE` (flag modelled from the
spec's access-flag bitfield, the header defining `FLOW_ACCESS_WRITE` is not
in the snapshot); `owner` is `data[flow_index].data_in->original->owner_device`. -/
structure OutFlow where
  write : Bool
  owner : ℤ
  deriving DecidableEq, Repr

/-- Value of the local `dev_index` after the first loop of
`dague_gpu_get_best_device` (lines 1282-1291): the loop assigns the owner of
every output flow in WRITE mode and breaks as soon as that owner is `> 1`.
Result `none` means the loop never assigned `dev_index` (no WRITE output
flow), i.e. the C variable keeps its indeterminate initial value. -/
def findWriteOwner : List (Option OutFlow) → Option ℤ
  | [] => none
  | none :: rest => findWriteOwner rest
  | some f :: rest =>
    if f.write then
      if f.owner > 1 then some f.owner
      else
        match findWriteOwner rest with
        | some d => some d
        | none => some f.owner
    else findWriteOwner rest

/-- The first output flow in WRITE mode whose datum has `owner_device > 1`,
if any (the locality case of the selector). -/
def firstHighOwner : List (Option OutFlow) → Option ℤ
  | [] => none
  | none :: rest => firstHighOwner rest
  | some f :: rest =>
    if f.write ∧ f.owner > 1 then some f.owner else firstHighOwner rest

/-- The argmin loop of lines 1300-1308: fold over the device indices
`2 .. dague_devices_enabled()-1`, skipping devices whose bit is not set in
`handle->devices_mask`, keeping the index of strictly smallest
`load[v] + ratio * sweight[v]` (ties keep the earlier index). -/
def bestLoop (mask : ℕ) (w : ℕ → ℚ) : List ℕ → ℕ × ℚ → ℕ × ℚ
  | [], best => best
  | v :: rest, best =>
    if mask.testBit v then
      if best.2 > w v then bestLoop mask w rest (v, w v)
      else bestLoop mask w rest best
    else bestLoop mask w rest best

/-- Load increment performed by the selector at line 1309:
`dague_device_load[best_index] += ratio * dague_device_sweight[best_index]`. -/
def selectorReserveLoad (load sweight : ℕ → ℚ) (ratio : ℚ) (best : ℕ) : ℕ → ℚ :=
  fun v => if v = best then load v + ratio * sweight v else load v

/-- Load decrement performed by `dague_gpu_kernel_scheduler` when a task
completes (line 1915):
`dague_device_load[dev] -= dague_device_sweight[dev]` — note: without the
ratio. -/
def schedulerCompleteLoad (load sweight : ℕ → ℚ) (dev : ℕ) : ℕ → ℚ :=
  fun v => if v = dev then load v - sweight v else load v

/-- `dague_gpu_get_best_device` (lines 1276-1315).  `devIndex0` is the
indeterminate initial value of the uninitialized C local `dev_index`
(read when the task has no output flow in WRITE mode).  Returns the chosen
device index and the updated `dague_device_load` vector. -/
def dague_gpu_get_best_device (outFlows : List (Option OutFlow)) (devIndex0 : ℤ)
    (nbDev : ℕ) (mask : ℕ) (load sweight : ℕ → ℚ) (ratio : ℚ) : ℤ × (ℕ → ℚ) :=
  let devIndex := (findWriteOwner outFlows).getD devIndex0
  if devIndex ≤ 1 then
    let w : ℕ → ℚ := fun v => load v + ratio * sweight v
    let best := (bestLoop mask w (List.range' 2 (nbDev - 2)) (0, w 0)).1
    ((best : ℤ), selectorReserveLoad load sweight ratio best)
  else
    (devIndex, load)

/-- A device index eligible for the argmin of the selector: the CPU device 0
(the initial candidate, not gated by the mask) or a device of index `≥ 2`
(index 1, the recursive pseudo-device, is skipped by starting the loop at 2)
below `dague_devices_enabled()` whose bit is set in the handle's mask. -/
def selectorCandidate (nbDev mask : ℕ) (v : ℕ) : Prop :=
  v = 0 ∨ (2 ≤ v ∧ v < nbDev ∧ mask.testBit v)

/-! ### Selector lemmas -/

theorem findWriteOwner_of_firstHighOwner {l : List (Option OutFlow)} {d : ℤ}
    (h : firstHighOwner l = some d) : findWriteOwner l = some d := by
  induction l with
  | nil => simp [firstHighOwner] at h
  | cons hd rest ih =>
    cases hd with
    | none =>
      simp only [firstHighOwner] at h
      simpa [findWriteOwner] using ih h
    | some f =>
      simp only [firstHighOwner] at h
      by_cases hw : f.write = true ∧ f.owner > 1
      · rw [if_pos hw] at h
        have hd : f.owner = d := by simpa using h
        subst hd
        simp [findWriteOwner, hw.1, hw.2]
      · rw [if_neg hw] at h
        rcases Decidable.em (f.write = true) with hwr | hwr
        · have hno : ¬ f.owner > 1 := fun hx => hw ⟨hwr, hx⟩
          simp [findWriteOwner, hwr, hno, ih h]
        · simp [findWriteOwner, hwr, ih h]

theorem findWriteOwner_low {l : List (Option OutFlow)}
    (h : firstHighOwner l = none) :
    ∀ d, findWriteOwner l = some d → d ≤ 1 := by
  induction l with
  | nil => intro d hd; simp [findWriteOwner] at hd
  | cons hd rest ih =>
    intro d hdw
    cases hd with
    | none =>
      simp only [firstHighOwner] at h
      exact ih h d (by simpa [findWriteOwner] using hdw)
    | some f =>
      simp only [firstHighOwner] at h
      by_cases hw : f.write = true ∧ f.owner > 1
      · rw [if_pos hw] at h
        exact absurd h (by simp)
      · rw [if_neg hw] at h
        rcases Decidable.em (f.write = true) with hwr | hwr
        · have hno : ¬ f.owner > 1 := fun hx => hw ⟨hwr, hx⟩
          simp only [findWriteOwner, hwr, if_true, hno, if_false] at hdw
          rcases hrest : findWriteOwner rest with _ | d'
          · rw [hrest] at hdw
            have hd : f.owner = d := by simpa using hdw
            omega
          · rw [hrest] at hdw
            have hd : d' = d := by simpa using hdw
            subst hd
            exact ih h d' hrest
        · simp only [findWriteOwner, hwr, if_neg, Bool.false_eq_true, if_false] at hdw
          exact ih h d hdw

theorem bestLoop_spec (mask : ℕ) (w : ℕ → ℚ) (l : List ℕ) :
    ∀ bi : ℕ, (bestLoop mask w l (bi, w bi)).2 = w (bestLoop mask w l (bi, w bi)).1 ∧
      ((bestLoop mask w l (bi, w bi)).1 = bi ∨
        ((bestLoop mask w l (bi, w bi)).1 ∈ l ∧ mask.testBit (bestLoop mask w l (bi, w bi)).1)) ∧
      (bestLoop mask w l (bi, w bi)).2 ≤ w bi ∧
      (∀ v ∈ l, mask.testBit v → (bestLoop mask w l (bi, w bi)).2 ≤ w v) := by
  induction l with
  | nil => intro bi; simp [bestLoop]
  | cons x rest ih =>
    intro bi
    by_cases hm : mask.testBit x
    · by_cases hlt : w bi > w x
      · have h := ih x
        have hstep : bestLoop mask w (x :: rest) (bi, w bi) = bestLoop mask w rest (x, w x) := by
          simp [bestLoop, hm, hlt]
        rw [hstep]
        refine ⟨h.1, ?_, le_trans h.2.2.1 (le_of_lt hlt), ?_⟩
        · rcases h.2.1 with h1 | h1
          · right
            rw [h1]
            exact ⟨List.mem_cons_self x rest, hm⟩
          · right; exact ⟨List.mem_cons_of_mem x h1.1, h1.2⟩
        · intro v hv hmv
          rcases List.mem_cons.mp hv with rfl | hv'
          · exact h.2.2.1
          · exact h.2.2.2 v hv' hmv
      · have h := ih bi
        refine ⟨?_, ?_, ?_, ?_⟩
        · simpa [bestLoop, hm, hlt] using h.1
        · rcases h.2.1 with h1 | h1
          · left; simpa [bestLoop, hm, hlt] using h1
          · right
            constructor
            · simp [bestLoop, hm, hlt]; exact Or.inr h1.1
            · simpa [bestLoop, hm, hlt] using h1.2
        · simpa [bestLoop, hm, hlt] using h.2.2.1
        · intro v hv hmv
          rcases List.mem_cons.mp hv with rfl | hv'
          · have : w bi ≤ w v := not_lt.mp hlt
            exact le_trans (by simpa [bestLoop, hm, hlt] using h.2.2.1) this
          · simpa [bestLoop, hm, hlt] using h.2.2.2 v hv' hmv
    · have h := ih bi
      refine ⟨?_, ?_, ?_, ?_⟩
      · simpa [bestLoop, hm] using h.1
      · rcases h.2.1 with h1 | h1
        · left; simpa [bestLoop, hm] using h1
        · right
          constructor
          · simp [bestLoop, hm]; exact Or.inr h1.1
          · simpa [bestLoop, hm] using h1.2
      · simpa [bestLoop, hm] using h.2.2.1
      · intro v hv hmv
        rcases List.mem_cons.mp hv with rfl | hv'
        · exact absurd hmv hm
        · simpa [bestLoop, hm] using h.2.2.2 v hv' hmv

theorem firstHighOwner_pos {l : List (Option OutFlow)} {d : ℤ}
    (h : firstHighOwner l = some d) : d > 1 := by
  induction l with
  | nil => simp [firstHighOwner] at h
  | cons hd rest ih =>
    cases hd with
    | none => exact ih (by simpa [firstHighOwner] using h)
    | some f =>
      simp only [firstHighOwner] at h
      by_cases hw : f.write = true ∧ f.owner > 1
      · rw [if_pos hw] at h
        have : f.owner = d := by simpa using h
        omega
      · rw [if_neg hw] at h
        exact ih h

/-- **C1 (counterexample).** The claim quantifies over *every* task; for a
task with no output flow in WRITE mode the C code reads the uninitialized
local `dev_index` (modelled by the `devIndex0` parameter).  With residual
value 7, three devices, device 2 enabled, zero loads, unit weights and
ratio 1 the selector returns 7 — not the argmin (which would be a device in
the candidate set) — and leaves every load unchanged (no increment). -/
theorem getBestDevice_uninitialized_cex :
    (dague_gpu_get_best_device [] 7 3 4 (fun _ => 0) (fun _ => 1) 1).1 = 7 ∧
    ¬ selectorCandidate 3 4 7 ∧
    (dague_gpu_get_best_device [] 7 3 4 (fun _ => 0) (fun _ => 1) 1).2 0 = 0 ∧
    (dague_gpu_get_best_device [] 7 3 4 (fun _ => 0) (fun _ => 1) 1).2 2 = 0 := by
  refine ⟨rfl, ?_, rfl, rfl⟩
  simp [selectorCandidate]

/-- **C1 (amended).** For every task with at least one output flow in WRITE
mode: if some such flow's datum has `owner_device > 1` the selector returns
the first such owner and leaves the load vector untouched; otherwise it
returns the argmin, over device 0 and the enabled devices of index ≥ 2
(pseudo-device 1 is always skipped), of `load[v] + ratio·sweight[v]`, and
increments exactly the chosen device's load by `ratio · sweight[chosen]`.
(For a task with no WRITE output flow the source reads an uninitialized
variable, so the claim's "otherwise" branch does not hold there.) -/
theorem getBestDevice_spec (outFlows : List (Option OutFlow)) (devIndex0 : ℤ)
    (nbDev mask : ℕ) (load sweight : ℕ → ℚ) (ratio : ℚ)
    (hW : (findWriteOwner outFlows).isSome = true) :
    (∀ d : ℤ, firstHighOwner outFlows = some d →
      dague_gpu_get_best_device outFlows devIndex0 nbDev mask load sweight ratio = (d, load)) ∧
    (firstHighOwner outFlows = none →
      ∃ b : ℕ,
        dague_gpu_get_best_device outFlows devIndex0 nbDev mask load sweight ratio
          = ((b : ℤ), selectorReserveLoad load sweight ratio b) ∧
        selectorCandidate nbDev mask b ∧
        ∀ v : ℕ, selectorCandidate nbDev mask v →
          load b + ratio * sweight b ≤ load v + ratio * sweight v) := by
  constructor
  · intro d hd
    have hfw := findWriteOwner_of_firstHighOwner hd
    have hpos := firstHighOwner_pos hd
    unfold dague_gpu_get_best_device
    rw [hfw]
    simp only [Option.getD_some]
    rw [if_neg (by omega)]
  · intro hnone
    rcases Option.isSome_iff_exists.mp hW with ⟨d, hd⟩
    have hle : d ≤ 1 := findWriteOwner_low hnone d hd
    unfold dague_gpu_get_best_device
    rw [hd]
    simp only [Option.getD_some]
    rw [if_pos hle]
    set w : ℕ → ℚ := fun v => load v + ratio * sweight v with hw
    refine ⟨(bestLoop mask w (List.range' 2 (nbDev - 2)) (0, w 0)).1, rfl, ?_, ?_⟩
    · have h := (bestLoop_spec mask w (List.range' 2 (nbDev - 2)) 0).2.1
      rcases h with h1 | h1
      · exact Or.inl h1
      · right
        have hmem := List.mem_range'_1.mp h1.1
        refine ⟨hmem.1, ?_, h1.2⟩
        omega
    · intro v hv
      have h := bestLoop_spec mask w (List.range' 2 (nbDev - 2)) 0
      have heq := h.1
      rcases hv with rfl | ⟨h2, hlt, hbit⟩
      · calc w (bestLoop mask w (List.range' 2 (nbDev - 2)) (0, w 0)).1
            = (bestLoop mask w (List.range' 2 (nbDev - 2)) (0, w 0)).2 := heq.symm
          _ ≤ w 0 := h.2.2.1
      · have hvmem : v ∈ List.range' 2 (nbDev - 2) := by
          apply List.mem_range'_1.mpr
          omega
        calc w (bestLoop mask w (List.range' 2 (nbDev - 2)) (0, w 0)).1
            = (bestLoop mask w (List.range' 2 (nbDev - 2)) (0, w 0)).2 := heq.symm
          _ ≤ w v := h.2.2.2 v hvmem hbit

/-- Witness for `getBestDevice_spec`: a task with a WRITE output flow whose
datum is owned by device 3; the selector returns device 3 with the load
vector unchanged. -/
theorem getBestDevice_spec_witness :
    (findWriteOwner [some ⟨true, 3⟩]).isSome = true ∧
    dague_gpu_get_best_device [some ⟨true, 3⟩] 0 3 4 (fun _ => 0) (fun _ => 1) 1
      = (3, fun _ => 0) :=
  ⟨rfl, (getBestDevice_spec [some ⟨true, 3⟩] 0 3 4 (fun _ => 0) (fun _ => 1) 1 rfl).1 3 rfl⟩

/-- **C5 (counterexample).** With ratio 2 and unit weights the selector's
argmin branch picks device 0 and adds `ratio · sweight[0] = 2` to its load,
but `dague_gpu_kernel_scheduler` subtracts only `sweight[0] = 1` at
completion (dev_cuda.c line 1915): the device's load does not return to its
pre-assignment value 0. -/
theorem loadRoundTrip_cex :
    (dague_gpu_get_best_device [some ⟨true, 0⟩] 0 2 4 (fun _ => 0) (fun _ => 1) 2).1 = 0 ∧
    (dague_gpu_get_best_device [some ⟨true, 0⟩] 0 2 4 (fun _ => 0) (fun _ => 1) 2).2 0 = 2 ∧
    schedulerCompleteLoad
      (dague_gpu_get_best_device [some ⟨true, 0⟩] 0 2 4 (fun _ => 0) (fun _ => 1) 2).2
      (fun _ => 1) 0 0 = 1 ∧
    schedulerCompleteLoad
      (dague_gpu_get_best_device [some ⟨true, 0⟩] 0 2 4 (fun _ => 0) (fun _ => 1) 2).2
      (fun _ => 1) 0 0 ≠ 0 := by
  refine ⟨?_, ?_, ?_, ?_⟩ <;>
    norm_num [dague_gpu_get_best_device, findWriteOwner, bestLoop, List.range',
      selectorReserveLoad, schedulerCompleteLoad]

/-- **C5 (amended).** The amount the selector adds to the chosen device's
load is `ratio · sweight[d]`; the amount the scheduler subtracts at task
completion is `sweight[d]` (without the ratio).  The load returns to its
pre-assignment value exactly when `(ratio - 1) · sweight[d] = 0`, i.e. when
`ratio = 1` or the device's weight is zero — not for every ratio. -/
theorem loadRoundTrip_spec (load sweight : ℕ → ℚ) (ratio : ℚ) (d : ℕ) :
    selectorReserveLoad load sweight ratio d d - load d = ratio * sweight d ∧
    selectorReserveLoad load sweight ratio d d -
      schedulerCompleteLoad (selectorReserveLoad load sweight ratio d) sweight d d
        = sweight d ∧
    (schedulerCompleteLoad (selectorReserveLoad load sweight ratio d) sweight d d = load d ↔
      (ratio - 1) * sweight d = 0) := by
  have h1 : selectorReserveLoad load sweight ratio d d = load d + ratio * sweight d := by
    simp [selectorReserveLoad]
  have h2 : schedulerCompleteLoad (selectorReserveLoad load sweight ratio d) sweight d d
      = load d + ratio * sweight d - sweight d := by
    simp [schedulerCompleteLoad, selectorReserveLoad]
  refine ⟨by rw [h1]; ring, by rw [h1, h2]; ring, ?_⟩
  rw [h2]
  constructor <;> intro h <;> linear_combination h

/-! ## Handle registration (`dague_cuda_handle_register`, dev_cuda.c lines 293-334) -/

/-- One entry of a function's `incarnations` (chore) array, as inspected by
`dague_cuda_handle_register`: whether `chores[j].type == device->type`,
whether `chores[j].dyld` is non-NULL, and whether
`cuda_solve_handle_dependencies` finds a symbol for it. -/
structure Chore where
  matchesType : Bool
  hasDyld : Bool
  resolves : Bool
  deriving DecidableEq, Repr

/-- A chore makes the registration succeed when its type matches the device
and either it needs no dynamic load (`NULL == chores[j].dyld`, line 311) or
its symbol resolves (lines 318-319). -/
def choreResolved (c : Chore) : Bool :=
  c.matchesType && (!c.hasDyld || c.resolves)

/-- `dague_cuda_handle_register` (lines 293-334), one inner chore list per
function of the handle.  Returns the success flag (`true` = DAGUE_SUCCESS,
`false` = DAGUE_ERR_NOT_FOUND) and the updated `handle->devices_mask`.
The update at line 330 is `handle->devices_mask &= ~(device->device_index)`:
the 32-bit complement of the device *index value* itself, not of
`1 << device_index`. -/
def dague_cuda_handle_register (functions : List (List Chore))
    (devicesMask deviceIndex : ℕ) : Bool × ℕ :=
  let ok := functions.any (fun chores => chores.any choreResolved)
  if ok then (true, devicesMask)
  else (false, devicesMask &&& ((2 ^ 32 - 1) ^^^ (deviceIndex % 2 ^ 32)))

/-- **C8 (code bug).** Registering a handle with a single unresolvable chore
on the device of index 2 with `devices_mask = 0b111` returns NotFound but
leaves mask `0b101`: bit 1 (device 1!) is cleared and bit 2 (the failing
device, which `dague_gpu_get_best_device` tests as `1 << dev_index` at line
1302) is still set.  The claimed update — clear exactly bit 2 — would give
`0b011`. -/
theorem handleRegister_mask_bug :
    (dague_cuda_handle_register [[⟨true, true, false⟩]] 7 2).1 = false ∧
    (dague_cuda_handle_register [[⟨true, true, false⟩]] 7 2).2 = 5 ∧
    Nat.testBit 5 2 = true ∧
    Nat.testBit 5 1 = false ∧
    (5 : ℕ) ≠ 7 &&& ((2 ^ 32 - 1) ^^^ (1 <<< 2)) := by
  refine ⟨rfl, by decide, by decide, by decide, by decide⟩

/-! ## Kernel resolution capability table (`cuda_solve_handle_dependencies`,
dev_cuda.c lines 183-291) -/

/-- The table of legal compute capabilities (line 183). -/
def cuda_legal_compute_capabilitites : List ℕ := [10, 11, 12, 13, 20, 21, 30, 35]

/-- The loop bound of line 197 is `(int)sizeof(cuda_legal_compute_capabilitites)`:
the size in bytes of a `int[8]` array, i.e. 32, not the element count 8. -/
def capTableSizeof : ℕ := 32

/-- One read of `cuda_legal_compute_capabilitites[i]`: a table entry when
`i < 8`, otherwise whatever memory follows the array (`oob`, indeterminate
— an out-of-bounds read). -/
def capTableRead (oob : ℕ → ℕ) (i : ℕ) : ℕ :=
  match cuda_legal_compute_capabilitites.get? i with
  | some v => v
  | none => oob i

/-- The list of indices `i` at which the capability-location loop of lines
197-202 reads the table: it reads index `i` and breaks when the value read
equals `capability`, otherwise continues while `i < sizeof(table)`. -/
def capSearchReads (oob : ℕ → ℕ) (capability : ℕ) (i : ℕ) : List ℕ :=
  if capTableSizeof ≤ i then []
  else
    i :: (if capTableRead oob i = capability then [] else capSearchReads oob capability (i + 1))
termination_by capTableSizeof - i
decreasing_by simp [capTableSizeof] at *; omega

/-- Capability-to-cores lookup `dague_cuda_lookup_device_cudacores`
(lines 65-80); `none` models the `DAGUE_ERROR` return. -/
def dague_cuda_lookup_device_cudacores (major minor : ℕ) : Option ℕ :=
  if major = 1 then some 8
  else if major = 2 ∧ minor = 0 then some 32
  else if major = 2 ∧ minor = 1 then some 48
  else if major = 3 then some 192
  else none

theorem capSearchReads_head (oob : ℕ → ℕ) (c i : ℕ) (hi : i < 32)
    (hne : capTableRead oob i ≠ c) :
    capSearchReads oob c i = i :: capSearchReads oob c (i + 1) := by
  rw [capSearchReads.eq_def]
  rw [if_neg (by simp only [capTableSizeof]; omega), if_neg hne]

theorem capSearchReads_stop (oob : ℕ → ℕ) (c i : ℕ) (hi : i < 32)
    (heq : capTableRead oob i = c) :
    capSearchReads oob c i = [i] := by
  rw [capSearchReads.eq_def]
  rw [if_neg (by simp only [capTableSizeof]; omega), if_pos heq]

/-- **C9 (code bug).** A device of capability 3.7 passes the cudacores check
of `dague_gpu_init` (major 3 ⇒ 192 cores), so capability 37 reaches
`cuda_solve_handle_dependencies`; 37 is not in the legal table, so the
location loop — bounded by `sizeof` in bytes — reads index 8 (and beyond),
out of the 0..7 bounds, whatever the adjacent memory holds.  For a
capability that is in the table (35) every read index is `< 8` as the claim
states. -/
theorem capSearch_oob_read (oob : ℕ → ℕ) :
    dague_cuda_lookup_device_cudacores 3 7 = some 192 ∧
    8 ∈ capSearchReads oob 37 0 ∧
    ∀ j ∈ capSearchReads oob 35 0, j < 8 := by
  refine ⟨rfl, ?_, ?_⟩
  · rw [capSearchReads_head oob 37 0 (by omega) (by norm_num [capTableRead, cuda_legal_compute_capabilitites]),
      capSearchReads_head oob 37 1 (by omega) (by norm_num [capTableRead, cuda_legal_compute_capabilitites]),
      capSearchReads_head oob 37 2 (by omega) (by norm_num [capTableRead, cuda_legal_compute_capabilitites]),
      capSearchReads_head oob 37 3 (by omega) (by norm_num [capTableRead, cuda_legal_compute_capabilitites]),
      capSearchReads_head oob 37 4 (by omega) (by norm_num [capTableRead, cuda_legal_compute_capabilitites]),
      capSearchReads_head oob 37 5 (by omega) (by norm_num [capTableRead, cuda_legal_compute_capabilitites]),
      capSearchReads_head oob 37 6 (by omega) (by norm_num [capTableRead, cuda_legal_compute_capabilitites]),
      capSearchReads_head oob 37 7 (by omega) (by norm_num [capTableRead, cuda_legal_compute_capabilitites]),
      capSearchReads.eq_def]
    rw [if_neg (by simp only [capTableSizeof]; omega)]
    simp
  · have h : capSearchReads oob 35 0 = [0, 1, 2, 3, 4, 5, 6, 7] := by
      rw [capSearchReads_head oob 35 0 (by omega) (by norm_num [capTableRead, cuda_legal_compute_capabilitites]),
        capSearchReads_head oob 35 1 (by omega) (by norm_num [capTableRead, cuda_legal_compute_capabilitites]),
        capSearchReads_head oob 35 2 (by omega) (by norm_num [capTableRead, cuda_legal_compute_capabilitites]),
        capSearchReads_head oob 35 3 (by omega) (by norm_num [capTableRead, cuda_legal_compute_capabilitites]),
        capSearchReads_head oob 35 4 (by omega) (by norm_num [capTableRead, cuda_legal_compute_capabilitites]),
        capSearchReads_head oob 35 5 (by omega) (by norm_num [capTableRead, cuda_legal_compute_capabilitites]),
        capSearchReads_head oob 35 6 (by omega) (by norm_num [capTableRead, cuda_legal_compute_capabilitites]),
        capSearchReads_stop oob 35 7 (by omega) (by norm_num [capTableRead, cuda_legal_compute_capabilitites])]
    rw [h]
    decide

/-! ## GPU subsystem init (`dague_gpu_init`, dev_cuda.c lines 343-586) -/

/-- Compute capability of a CUDA device as reported by the driver. -/
structure DevProp where
  major : ℕ
  minor : ℕ
  deriving DecidableEq, Repr

/-- The per-device loop of `dague_gpu_init` (lines 426-552), restricted to
the decisions claim C10 is about: a device whose bit is not set in the
configured mask is skipped (line 433); for an enabled device, when
`dague_cuda_lookup_device_cudacores` fails the whole function returns -1 at
once (lines 515-517); otherwise the device is configured and added
(`dague_devices_add`, line 551).  Returns the cuda indices added and the
return code (0 or -1). -/
def dague_gpu_init_loop (mask : ℕ) : ℕ → List DevProp → List ℕ × ℤ
  | _, [] => ([], 0)
  | i, d :: rest =>
    if ¬ mask.testBit i then dague_gpu_init_loop mask (i + 1) rest
    else if (dague_cuda_lookup_device_cudacores d.major d.minor).isNone then ([], -1)
    else
      let r := dague_gpu_init_loop mask (i + 1) rest
      (i :: r.1, r.2)

theorem gpuInitLoop_abort (mask : ℕ) :
    ∀ (devs : List DevProp) (s p : ℕ) (hp : p < devs.length),
      mask.testBit (s + p) = true →
      (dague_cuda_lookup_device_cudacores (devs.get ⟨p, hp⟩).major
        (devs.get ⟨p, hp⟩).minor).isNone = true →
      (dague_gpu_init_loop mask s devs).2 = -1 ∧
        ∀ j ∈ (dague_gpu_init_loop mask s devs).1, j < s + p := by
  intro devs
  induction devs with
  | nil => intro s p hp; simp at hp
  | cons d rest ih =>
    intro s p hp hen hun
    by_cases hm : mask.testBit s
    · by_cases hbad : (dague_cuda_lookup_device_cudacores d.major d.minor).isNone = true
      · constructor
        · simp [dague_gpu_init_loop, hm, hbad]
        · intro j hj
          simp [dague_gpu_init_loop, hm, hbad] at hj
      · cases p with
        | zero =>
          exfalso
          exact hbad (by simpa using hun)
        | succ p' =>
          have hp' : p' < rest.length := by simpa using hp
          have h := ih (s + 1) p' hp' (by
            have : s + 1 + p' = s + (p' + 1) := by omega
            rw [this]; exact hen) (by simpa using hun)
          constructor
          · simpa [dague_gpu_init_loop, hm, hbad] using h.1
          · intro j hj
            simp only [dague_gpu_init_loop, hm, not_true_eq_false, if_false, hbad] at hj
            simp at hj
            rcases hj with rfl | hj
            · omega
            · have := h.2 j hj
              omega
    · cases p with
      | zero =>
        exfalso
        rw [Nat.add_zero] at hen
        rw [hen] at hm
        exact hm rfl
      | succ p' =>
        have hp' : p' < rest.length := by simpa using hp
        have h := ih (s + 1) p' hp' (by
          have : s + 1 + p' = s + (p' + 1) := by omega
          rw [this]; exact hen) (by simpa using hun)
        constructor
        · simpa [dague_gpu_init_loop, hm] using h.1
        · intro j hj
          simp only [dague_gpu_init_loop, hm, not_false_eq_true, if_true] at hj
          have := h.2 j hj
          omega

/-- **C10 (confirmed).** If some enabled CUDA device reports a compute
capability outside the supported set (`dague_cuda_lookup_device_cudacores`
fails: major ∉ {1,2,3}, or major 2 with minor ∉ {0,1}), `dague_gpu_init`
returns -1 immediately: the whole initialization is aborted at that device —
no device from that point on is configured — instead of just skipping the
unsupported device. -/
theorem gpuInit_abort_on_unsupported (mask : ℕ) (devs : List DevProp) (i : ℕ)
    (hi : i < devs.length)
    (hen : mask.testBit i = true)
    (hun : (dague_cuda_lookup_device_cudacores (devs.get ⟨i, hi⟩).major
      (devs.get ⟨i, hi⟩).minor).isNone = true) :
    (dague_gpu_init_loop mask 0 devs).2 = -1 ∧
      ∀ j ∈ (dague_gpu_init_loop mask 0 devs).1, j < i := by
  have h := gpuInitLoop_abort mask devs 0 i hi (by simpa using hen) hun
  simpa using h

/-- Witness for `gpuInit_abort_on_unsupported`: two enabled devices, the
first of capability 1.0 (supported), the second of capability 5.0
(unsupported): init returns -1 and only device 0 was configured. -/
theorem gpuInit_abort_on_unsupported_witness :
    1 < ([⟨1, 0⟩, ⟨5, 0⟩] : List DevProp).length ∧
    Nat.testBit 3 1 = true ∧
    ((dague_gpu_init_loop 3 0 [⟨1, 0⟩, ⟨5, 0⟩]).2 = -1 ∧
      ∀ j ∈ (dague_gpu_init_loop 3 0 [⟨1, 0⟩, ⟨5, 0⟩]).1, j < 1) :=
  ⟨by decide, by decide,
    gpuInit_abort_on_unsupported 3 [⟨1, 0⟩, ⟨5, 0⟩] 1 (by decide) (by decide) (by decide)⟩

/-! ## D2H drain task synthesis (`dague_gpu_create_W2R_task` lines 1178-1223,
`dague_gpu_kernel_pop` D2HTRANSFER branch lines 1623-1639,
`dague_gpu_W2R_task_fini` lines 1228-1254) -/

/-- Coherency state of a data copy (`DATA_COHERENCY_*`). -/
inductive Coherency
  | invalid
  | shared
  | owned
  deriving DecidableEq, Repr

/-- A device copy on the owned LRU, together with the fields of its datum's
host copy (`original->device_copies[0]`) that the drain path reads and
writes. -/
structure DrainCopy where
  id : ℕ
  readers : ℤ
  version : ℕ
  coherency : Coherency
  hostReaders : ℤ
  hostVersion : ℕ
  hostCoherency : Coherency
  deriving DecidableEq, Repr

/-- The owned-LRU walk of `dague_gpu_create_W2R_task` (lines 1189-1211),
fuel-indexed (`none` = the given fuel does not suffice, i.e. for every fuel:
the loop does not terminate).  `parked` models the C iterator `item` when it
still points at the copy that was just ring-chopped: the code does not
advance `item` after the chop at line 1206, and `DAGUE_LIST_ITEM_SINGLETON`
makes the chopped item its own `list_next` (list primitives are in the
missing list_item.h; modelled from the spec's intrusive-ring description,
§4.C), so the skip branch at line 1197 leaves the iterator on that same
item.  `kept` are skipped items (they stay on the owned LRU), `sel` the
pinned copies in `ec->data[]` order.  Returns (pinned copies, remaining
owned LRU). -/
def w2rWalk (moveOut : ℕ) : ℕ → Option DrainCopy → List DrainCopy → List DrainCopy →
    List DrainCopy → Option (List DrainCopy × List DrainCopy)
  | 0, _, _, _, _ => none
  | fuel + 1, parked, rest, kept, sel =>
    if moveOut ≤ sel.length then some (sel, kept ++ rest)
    else
      match parked with
      | some c =>
        if c.readers ≠ 0 ∨ c.hostReaders ≠ 0 then
          w2rWalk moveOut fuel (some c) rest kept sel
        else
          w2rWalk moveOut fuel (some { c with readers := c.readers + 1 }) rest kept
            (sel ++ [{ c with readers := c.readers + 1 }])
      | none =>
        match rest with
        | [] => some (sel, kept)
        | c :: rest' =>
          if c.readers ≠ 0 ∨ c.hostReaders ≠ 0 then
            w2rWalk moveOut fuel none rest' (kept ++ [c]) sel
          else
            w2rWalk moveOut fuel (some { c with readers := c.readers + 1 }) rest' kept
              (sel ++ [{ c with readers := c.readers + 1 }])

/-- `dague_gpu_create_W2R_task` selection (lines 1184-1214): walk the owned
LRU from its head with the given fuel.  `moveOut` is
`DAGUE_GPU_W2R_NB_MOVE_OUT` (the constant lives in the missing dev_cuda.h;
modelled from the spec: "up to `MAX_DRAIN` replicas", value left as a
parameter). -/
def dague_gpu_create_W2R_task (moveOut fuel : ℕ) (ownedLru : List DrainCopy) :
    Option (List DrainCopy × List DrainCopy) :=
  w2rWalk moveOut fuel none ownedLru [] []

/-- Modelled from the spec (§4.J): the intended owned-LRU walk — skip a
replica with readers on either side and continue with the *next* item, pin
up to `moveOut` eligible replicas.  This is the walk the claim describes;
the source's walk (`w2rWalk`) differs by not advancing its iterator after a
chop.  Used to exhibit the stage-out defect independently of the iterator
defect. -/
def w2rSelectSpec : ℕ → List DrainCopy → List DrainCopy × List DrainCopy
  | _, [] => ([], [])
  | 0, l => ([], l)
  | moveOut + 1, c :: rest =>
    if c.readers ≠ 0 ∨ c.hostReaders ≠ 0 then
      let r := w2rSelectSpec (moveOut + 1) rest
      (r.1, c :: r.2)
    else
      let r := w2rSelectSpec moveOut rest
      ({ c with readers := c.readers + 1 } :: r.1, r.2)

/-- The `GPU_TASK_TYPE_D2HTRANSFER` branch of `dague_gpu_kernel_pop` (lines
1623-1639): the loop is literally `for( i = 0; i < 1; i++ )`, so an
asynchronous device-to-host copy is launched only for `data[0].data_out`.
Returns the ids of the copies whose transfer is launched. -/
def dague_gpu_kernel_pop_drain (pinned : List DrainCopy) : List ℕ :=
  (pinned.take 1).map (fun c => c.id)

/-- Per-copy effect of `dague_gpu_W2R_task_fini` (lines 1238-1250): both the
device copy and the host copy become SHARED, the host version is set to the
device version, and the pin is released (`readers--`). -/
def w2rFiniCopy (c : DrainCopy) : DrainCopy :=
  { c with coherency := .shared, hostCoherency := .shared,
           hostVersion := c.version, readers := c.readers - 1 }

/-- `dague_gpu_W2R_task_fini` (lines 1228-1254): every pinned copy (the loop
runs while `i < DAGUE_GPU_W2R_NB_MOVE_OUT` and `data[i].data_out` is
non-NULL) is finalized and fifo-pushed onto the free LRU. -/
def dague_gpu_W2R_task_fini (moveOut : ℕ) (pinned freeLru : List DrainCopy) :
    List DrainCopy :=
  freeLru ++ (pinned.take moveOut).map w2rFiniCopy

theorem w2rWalk_parked_spins (moveOut : ℕ) (c : DrainCopy) (rest kept sel : List DrainCopy)
    (hc : c.readers ≠ 0) (hlen : sel.length < moveOut) :
    ∀ fuel, w2rWalk moveOut fuel (some c) rest kept sel = none := by
  intro fuel
  induction fuel with
  | zero => rfl
  | succ n ih =>
    rw [w2rWalk]
    rw [if_neg (by omega), if_pos (Or.inl hc)]
    exact ih

/-- **C2 (code bug).** With `MAX_DRAIN = 2` and an owned LRU holding two
eligible replicas (readers 0 on both device and host side):
(a) the selection walk of `dague_gpu_create_W2R_task` pins the first replica
and then never terminates — its iterator is left on the chopped singleton,
whose readers it just incremented, and is never advanced past it — so no
drain envelope is ever produced (for every fuel the walk is still running);
(b) granting the walk the spec intends (advance past pinned replicas), both
replicas are pinned into the envelope, but the D2HTRANSFER branch of
`dague_gpu_kernel_pop` launches a device-to-host copy only for `data[0]`
(loop `i < 1`), while `dague_gpu_W2R_task_fini` transitions *both* replicas
OWNED→SHARED and sets both host versions — the second host copy is declared
current without any transfer.  This contradicts the function's own comment
("Transfer at most the DAGUE_GPU_W2R_NB_MOVE_OUT oldest data … move them
all out") and the claim. -/
theorem w2r_drain_bug :
    (∀ fuel, dague_gpu_create_W2R_task 2 fuel
      [⟨1, 0, 5, .owned, 0, 3, .invalid⟩, ⟨2, 0, 6, .owned, 0, 4, .invalid⟩] = none) ∧
    (w2rSelectSpec 2
      [⟨1, 0, 5, .owned, 0, 3, .invalid⟩, ⟨2, 0, 6, .owned, 0, 4, .invalid⟩]).1.map
        (fun c => c.id) = [1, 2] ∧
    dague_gpu_kernel_pop_drain (w2rSelectSpec 2
      [⟨1, 0, 5, .owned, 0, 3, .invalid⟩, ⟨2, 0, 6, .owned, 0, 4, .invalid⟩]).1 = [1] ∧
    2 ∉ dague_gpu_kernel_pop_drain (w2rSelectSpec 2
      [⟨1, 0, 5, .owned, 0, 3, .invalid⟩, ⟨2, 0, 6, .owned, 0, 4, .invalid⟩]).1 ∧
    (dague_gpu_W2R_task_fini 2 (w2rSelectSpec 2
      [⟨1, 0, 5, .owned, 0, 3, .invalid⟩, ⟨2, 0, 6, .owned, 0, 4, .invalid⟩]).1 []).map
        (fun c => (c.id, c.coherency, c.hostCoherency, c.hostVersion, c.readers))
      = [(1, .shared, .shared, 5, 0), (2, .shared, .shared, 6, 0)] := by
  refine ⟨?_, by decide, by decide, by decide, by decide⟩
  intro fuel
  cases fuel with
  | zero => rfl
  | succ n =>
    show w2rWalk 2 (n + 1) none _ [] [] = none
    rw [w2rWalk]
    rw [if_neg (by decide)]
    simp only []
    rw [if_neg (by decide)]
    exact w2rWalk_parked_spins 2 _ _ _ _ (by decide) (by decide) n

/-! ## Stream pipeline (`progress_stream`, dev_cuda.c lines 1330-1486, and
`DAGUE_FIFO_PUSH`, lines 1317-1328) -/

/-- A task envelope as seen by a stream: an identity and the scheduling
priority (`ec->priority`). -/
structure PTask where
  id : ℕ
  priority : ℤ
  deriving DecidableEq, Repr

/-- `DAGUE_FIFO_PUSH = dague_fifo_push_ordered` (lines 1317-1325):
`dague_ulist_push_sorted` with the priority comparator.  The list code is in
the missing list.h; modelled from the spec (§4.D): "The pending FIFO is
ordered by task priority (descending).  Insertion is priority-ordered
merge" — stable, so a new element goes behind earlier elements of equal
priority. -/
def pushSorted : List PTask → PTask → List PTask
  | [], t => [t]
  | h :: rest, t =>
    if t.priority > h.priority then t :: h :: rest else h :: pushSorted rest t

/-- One execution stream (`dague_gpu_exec_stream_t`): the ring of `max_events` event/task slots
(`tasks`), `start` (next free slot), `stop` (the C field `end`: oldest
outstanding), and the pending FIFO. -/
structure ExecStream where
  tasks : List (Option PTask)
  start : ℕ
  stop : ℕ
  fifo : List PTask
  deriving DecidableEq, Repr

/-- Lines 1342-1345 of `progress_stream`: a non-NULL incoming task is
DAGUE_FIFO_PUSHed into the stream's pending FIFO. -/
def pushNew (newTask : Option PTask) (s : ExecStream) : ExecStream :=
  match newTask with
  | some t => { s with fifo := pushSorted s.fifo t }
  | none => s

/-- The grab_a_task/submission phase of `progress_stream` (lines 1346-1410):
when the ring slot at `start` is free, the head of the pending FIFO is
popped and submitted through `launch`; a negative non-critical result
re-inserts the task into the pending FIFO (DAGUE_FIFO_PUSH, line 1380) and
saves the code; -1 is critical (the C returns -1 on the spot); a
non-negative result records an event, stores the task at `tasks[start]` and
advances `start`.  Returns (stream, saved_rc, critical). -/
def grabSubmit (launch : PTask → ℤ) (s : ExecStream) : ExecStream × ℤ × Bool :=
  if (s.tasks.getD s.start none).isSome then (s, 0, false)
  else
    match s.fifo with
    | [] => (s, 0, false)
    | t :: rest =>
      if launch t < 0 then
        if launch t = -1 then ({ s with fifo := rest }, -1, true)
        else ({ s with fifo := pushSorted rest t }, launch t, false)
      else
        ({ s with fifo := rest,
                  tasks := s.tasks.set s.start (some t),
                  start := (s.start + 1) % s.tasks.length }, 0, false)

/-- The tail of check_completion (lines 1442-1478): after taking the
completed envelope out of the ring, `progress_stream` jumps back to
grab_a_task and tries to submit one more task; a second failure overwrites
`saved_rc`. -/
def progressAfterCompletion (launch : PTask → ℤ) (rc1 : ℤ) (t : PTask) (s : ExecStream) :
    ExecStream × Option PTask × ℤ :=
  match grabSubmit launch s with
  | (s2, rc2, crit2) =>
    if crit2 then (s2, some t, -1)
    else (s2, some t, if rc2 = 0 then rc1 else rc2)

/-- The check_completion phase of `progress_stream` (lines 1412-1485): when
the oldest ring slot holds a task whose event is ready — and, on the PUSH
stream, whose input transfers are complete (`pushOk`, lines 1423-1439;
on any other stream `pushOk` is constantly true) — the envelope is removed
from the ring, `end` advances, and one more submission round runs. -/
def progressCheckCompletion (launch : PTask → ℤ) (ready pushOk : PTask → Bool) :
    ExecStream × ℤ × Bool → ExecStream × Option PTask × ℤ
  | (s, rc1, crit) =>
    if crit then (s, none, -1)
    else
      match s.tasks.getD s.stop none with
      | none => (s, none, rc1)
      | some t =>
        if ready t then
          if pushOk t then
            progressAfterCompletion launch rc1 t
              { s with tasks := s.tasks.set s.stop none,
                       stop := (s.stop + 1) % s.tasks.length }
          else (s, none, rc1)
        else (s, none, rc1)

/-- `progress_stream` (lines 1330-1486): push the incoming task, run the
submission phase, then the completion phase.  `launch` is `progress_fct`
(or the task's own submit callback when NULL); `ready t` models the
`cudaEventQuery` on the event recorded for `t`. -/
def progress_stream (launch : PTask → ℤ) (ready pushOk : PTask → Bool)
    (newTask : Option PTask) (s0 : ExecStream) : ExecStream × Option PTask × ℤ :=
  progressCheckCompletion launch ready pushOk (grabSubmit launch (pushNew newTask s0))

theorem progressStream_requeue_lemma (launch : PTask → ℤ) (ready pushOk : PTask → Bool)
    (newTask : Option PTask) (s0 : ExecStream) (env : PTask) (rest : List PTask) (c : ℤ)
    (hfree : (pushNew newTask s0).tasks.getD (pushNew newTask s0).start none = none)
    (hfifo : (pushNew newTask s0).fifo = env :: rest)
    (hrc : launch env = c) (hneg : c < 0) (hncrit : c ≠ -1)
    (hnocomp : (pushNew newTask s0).tasks.getD (pushNew newTask s0).stop none = none) :
    progress_stream launch ready pushOk newTask s0
      = ({ pushNew newTask s0 with fifo := pushSorted rest env }, none, c) := by
  have h1 : grabSubmit launch (pushNew newTask s0)
      = ({ pushNew newTask s0 with fifo := pushSorted rest env }, c, false) := by
    unfold grabSubmit
    rw [hfree, hfifo]
    simp only [Option.isSome_none, Bool.false_eq_true, if_false, hrc]
    rw [if_pos hneg, if_neg hncrit]
  unfold progress_stream
  rw [h1]
  simp only [progressCheckCompletion, Bool.false_eq_true, if_false]
  rw [hnocomp]

/-! ## Stage-in (`dague_gpu_data_stage_in`, dev_cuda.c lines 934-1024) -/

/-- Transfer status of a copy (`DATA_STATUS_*`). -/
inductive TransferStatus
  | notTransferred
  | underTransfer
  | complete
  deriving DecidableEq, Repr

/-- The target device replica (`task_data->data_out`) as read and written by
`dague_gpu_data_stage_in`: its reader count, version, transfer status,
whether it is linked in an LRU ring (the WRITE path ring-chops it), and the
task recorded as responsible for the pending transfer. -/
structure StageCopy where
  readers : ℤ
  version : ℕ
  status : TransferStatus
  inAnyLru : Bool
  pushTask : Option ℕ
  deriving DecidableEq, Repr

/-- `dague_gpu_data_stage_in` (lines 934-1024).  `typeWrite` is
`FLOW_ACCESS_WRITE & type`; `inVersion` is the source (host) copy's version;
`transferFrom` is the result of `dague_data_transfer_ownership_to_copy`
(that function lives in the missing data.c — modelled from the spec §4.B:
the registry's coherence decision, `-1` meaning the target replica is
already current).  Returns the code (-86 anti-dependency, 1 copy scheduled,
0 already valid), the updated target replica, and whether an asynchronous
host-to-device copy was launched. -/
def dague_gpu_data_stage_in (typeWrite : Bool) (gpuElem : StageCopy) (inVersion : ℕ)
    (transferFrom : ℤ) (taskId : ℕ) : ℤ × StageCopy × Bool :=
  if typeWrite ∧ gpuElem.readers > 0 then (-86, gpuElem, false)
  else
    let g1 := if typeWrite then { gpuElem with inAnyLru := false } else gpuElem
    if transferFrom ≠ -1 then
      (1, { g1 with version := inVersion, status := .underTransfer,
                    pushTask := some taskId }, true)
    else (0, g1, false)

/-- **C6 (counterexample).** A WRITE stage-in against a replica with 2
readers returns -86 with no copy launched and the replica untouched — but
the task is then *re-queued* by `progress_stream` (-86 is a negative
non-critical code, lines 1377-1384): it stays in the stream's pending FIFO
to be retried, and the call returns -86, which `dague_gpu_kernel_scheduler`
does not treat as a device-disabling or task-failing condition (only -1 is,
lines 1833-1836).  The task is not failed back to the upstream engine. -/
theorem stageIn_antidep_cex :
    (dague_gpu_data_stage_in true ⟨2, 0, .complete, true, none⟩ 1 0 9).1 = -86 ∧
    (dague_gpu_data_stage_in true ⟨2, 0, .complete, true, none⟩ 1 0 9).2.1
      = ⟨2, 0, .complete, true, none⟩ ∧
    (dague_gpu_data_stage_in true ⟨2, 0, .complete, true, none⟩ 1 0 9).2.2 = false ∧
    (progress_stream (fun _ => -86) (fun _ => true) (fun _ => true) (some ⟨1, 5⟩)
      ⟨[none, none], 0, 0, []⟩).1.fifo = [⟨1, 5⟩] ∧
    (progress_stream (fun _ => -86) (fun _ => true) (fun _ => true) (some ⟨1, 5⟩)
      ⟨[none, none], 0, 0, []⟩).2.2 = -86 := by
  refine ⟨by decide, by decide, by decide, by decide, by decide⟩

/-- **C6 (amended).** For every stage-in whose access mode includes WRITE
against a target replica with `readers > 0`: the operation fails with -86
(AntiDependency, after a warning), no copy is launched and the replica is
unchanged; the progress loop then *re-queues* the failing task into the
stream's pending FIFO (to be retried on a later pass) and returns -86 to the
scheduler — the task is not failed back to the upstream engine; only the
critical code -1 aborts the device. -/
theorem stageIn_antidep_spec (typeWrite : Bool) (g : StageCopy) (inVersion : ℕ)
    (transferFrom : ℤ) (taskId : ℕ)
    (hw : typeWrite = true) (hr : g.readers > 0) :
    dague_gpu_data_stage_in typeWrite g inVersion transferFrom taskId = (-86, g, false) ∧
    ∀ (launch : PTask → ℤ) (ready pushOk : PTask → Bool) (env : PTask)
      (rest : List PTask) (s0 : ExecStream),
      (pushNew (some env) s0).tasks.getD (pushNew (some env) s0).start none = none →
      (pushNew (some env) s0).fifo = env :: rest →
      (pushNew (some env) s0).tasks.getD (pushNew (some env) s0).stop none = none →
      launch env = -86 →
      progress_stream launch ready pushOk (some env) s0
        = ({ pushNew (some env) s0 with fifo := pushSorted rest env }, none, -86) := by
  constructor
  · unfold dague_gpu_data_stage_in
    rw [if_pos ⟨hw, hr⟩]
  · intro launch ready pushOk env rest s0 hfree hfifo hnocomp hrc
    exact progressStream_requeue_lemma launch ready pushOk (some env) s0 env rest (-86)
      hfree hfifo hrc (by omega) (by omega) hnocomp

/-- Witness for `stageIn_antidep_spec`: a concrete WRITE stage-in against a
replica with one reader, and a concrete empty stream receiving the failing
task. -/
theorem stageIn_antidep_spec_witness :
    (true = true ∧ (1 : ℤ) > 0) ∧
    dague_gpu_data_stage_in true ⟨1, 4, .complete, true, none⟩ 7 0 3
      = (-86, ⟨1, 4, .complete, true, none⟩, false) :=
  ⟨⟨rfl, by omega⟩,
    (stageIn_antidep_spec true ⟨1, 4, .complete, true, none⟩ 7 0 3 rfl (by decide)).1⟩

/-- **C7 (counterexample).** A stream whose pending FIFO is
`[env(prio 5), t2(prio 5)]` (reachable by two earlier pushes): `env` is
popped and its launch fails with -2; the re-queue is the priority-ordered
insert `DAGUE_FIFO_PUSH`, which — being stable — puts `env` *behind* the
equal-priority `t2`: the resulting FIFO is `[t2, env]`, so the envelope is
not at the head as the claim states (the failure code is returned and the
ring is untouched). -/
theorem progressStream_requeue_cex :
    (progress_stream (fun t => if t.id = 1 then -2 else 0) (fun _ => true) (fun _ => true)
      none ⟨[none, none], 0, 0, [⟨1, 5⟩, ⟨2, 5⟩]⟩).1.fifo = [⟨2, 5⟩, ⟨1, 5⟩] ∧
    (progress_stream (fun t => if t.id = 1 then -2 else 0) (fun _ => true) (fun _ => true)
      none ⟨[none, none], 0, 0, [⟨1, 5⟩, ⟨2, 5⟩]⟩).1.fifo.head? ≠ some ⟨1, 5⟩ ∧
    (progress_stream (fun t => if t.id = 1 then -2 else 0) (fun _ => true) (fun _ => true)
      none ⟨[none, none], 0, 0, [⟨1, 5⟩, ⟨2, 5⟩]⟩).2.2 = -2 ∧
    (progress_stream (fun t => if t.id = 1 then -2 else 0) (fun _ => true) (fun _ => true)
      none ⟨[none, none], 0, 0, [⟨1, 5⟩, ⟨2, 5⟩]⟩).1.tasks = [none, none] := by
  refine ⟨by decide, by decide, by decide, by decide⟩

/-- **C7 (amended).** For every stream submission whose launch returns a
negative non-critical code (and with no completion pending on the ring):
the envelope is re-inserted into the pending FIFO by the priority-ordered
stable insert `DAGUE_FIFO_PUSH` — behind earlier tasks of equal or higher
priority, hence not necessarily at the head —, the failure code is returned
to the caller, and the ring (tasks array, `start`, `end`) is left exactly
as it was: no event is recorded for the failed launch. -/
theorem progressStream_failed_launch_spec (launch : PTask → ℤ) (ready pushOk : PTask → Bool)
    (newTask : Option PTask) (s0 : ExecStream) (env : PTask) (rest : List PTask) (c : ℤ)
    (hfree : (pushNew newTask s0).tasks.getD (pushNew newTask s0).start none = none)
    (hfifo : (pushNew newTask s0).fifo = env :: rest)
    (hrc : launch env = c) (hneg : c < 0) (hncrit : c ≠ -1)
    (hnocomp : (pushNew newTask s0).tasks.getD (pushNew newTask s0).stop none = none) :
    progress_stream launch ready pushOk newTask s0
      = ({ pushNew newTask s0 with fifo := pushSorted rest env }, none, c) :=
  progressStream_requeue_lemma launch ready pushOk newTask s0 env rest c
    hfree hfifo hrc hneg hncrit hnocomp

/-- Witness for `progressStream_failed_launch_spec`: a concrete empty-ring
stream whose only pending task fails to launch with -2. -/
theorem progressStream_failed_launch_spec_witness :
    (([none, none] : List (Option PTask)).getD 0 none = none ∧
      ([(⟨1, 5⟩ : PTask)] = (⟨1, 5⟩ : PTask) :: []) ∧
      ((-2 : ℤ) < 0 ∧ (-2 : ℤ) ≠ -1)) ∧
    progress_stream (fun _ => -2) (fun _ => true) (fun _ => true) none
        ⟨[none, none], 0, 0, [⟨1, 5⟩]⟩
      = (⟨[none, none], 0, 0, [⟨1, 5⟩]⟩, none, -2) :=
  ⟨⟨rfl, rfl, by omega, by omega⟩,
    progressStream_failed_launch_spec (fun _ => -2) (fun _ => true) (fun _ => true) none
      ⟨[none, none], 0, 0, [⟨1, 5⟩]⟩ ⟨1, 5⟩ [] (-2) rfl rfl rfl (by omega) (by omega) rfl⟩

/-! ## Eviction & space reservation (`dague_gpu_data_reserve_device_space`,
dev_cuda.c lines 807-924) -/

/-- A device data copy as handled by the reservation/eviction path. -/
structure RCopy where
  id : ℕ
  readers : ℤ
  original : ℕ
  coherency : Coherency
  version : ℕ
  deriving DecidableEq, Repr

/-- A task flow as seen by `dague_gpu_data_reserve_device_space`:
`isCtl` models `!(flow->flow_flags)` (line 826), `master` the key of
`this_task->data[i].data_in->original`. -/
structure RFlow where
  isCtl : Bool
  master : ℕ
  deriving DecidableEq, Repr

/-- The device and task state touched by the reservation call.  `copies` is
the per-datum device copy (`DAGUE_DATA_GET_COPY`); `dataOut` the per-flow
`this_task->data[i].data_out`; `temp` the local `temp_loc` array (the C
array is uninitialized — the state carries its contents explicitly).
`detached` and `dropped` are ghost audit lists: victims the call detached
and repurposed (line 895), and popped victims let loose by the readers
check (line 878) or the own-data check (line 890) without re-insertion. -/
structure RState where
  freeLru : List RCopy
  zoneFree : ℕ
  copies : ℕ → Option RCopy
  dataOut : ℕ → Option RCopy
  temp : ℕ → Option RCopy
  nextId : ℕ
  detached : List RCopy
  dropped : List RCopy

/-- The find_another_data pop loop (lines 846-892): pop the head of the free
LRU; a victim with `readers ≠ 0` is dropped (the `goto find_another_data`
at line 878 does not push it back), and so is a victim whose datum is an
input of the current task (line 890); the first victim passing both checks
is the chosen one.  Returns (`some (victim, remaining LRU)` or `none` when
the LRU is exhausted, dropped victims in pop order). -/
def evictLoop (taskMasters : List ℕ) : List RCopy → Option (RCopy × List RCopy) × List RCopy
  | [] => (none, [])
  | v :: rest =>
    if v.readers ≠ 0 then
      ((evictLoop taskMasters rest).1, v :: (evictLoop taskMasters rest).2)
    else if v.original ∈ taskMasters then
      ((evictLoop taskMasters rest).1, v :: (evictLoop taskMasters rest).2)
    else (some (v, rest), [])

/-- The undo loop of lines 856-860: for every `j < i`, lifo-push
`temp_loc[j]` (when non-NULL) onto the head of the free LRU. -/
def undoPush (temp : ℕ → Option RCopy) (i : ℕ) (lru : List RCopy) : List RCopy :=
  (List.range i).foldl
    (fun acc j => match temp j with | some r => r :: acc | none => acc) lru

/-- `zone_malloc` with eviction for one flow (lines 841-907).  The zone
allocator's source is not in the snapshot — modelled from the spec (§4.A)
as a counter of free fixed-size blocks with one block per datum, so the
`zone_free`+retry of lines 902-907 always succeeds after a victim is found.
On zone failure, victims are popped (`evictLoop`); the chosen victim is
detached from its datum (`dague_data_copy_detach`, line 895) and its block
freed.  Returns the updated state and whether a block was obtained
(`false` = free LRU exhausted, the RESCHEDULE path of lines 849-864). -/
def allocBlock (taskMasters : List ℕ) (s : RState) : RState × Bool :=
  if 1 ≤ s.zoneFree then ({ s with zoneFree := s.zoneFree - 1 }, true)
  else
    match evictLoop taskMasters s.freeLru with
    | (none, dropped) =>
      ({ s with freeLru := [], dropped := s.dropped ++ dropped }, false)
    | (some (v, rest), dropped) =>
      ({ s with freeLru := rest,
                copies := fun m => if m = v.original then none else s.copies m,
                dropped := s.dropped ++ dropped,
                detached := s.detached ++ [v] }, true)

/-- One non-CTL flow of the reservation loop (lines 828-921).  First
`temp_loc[i] = NULL` and `data_out = DAGUE_DATA_GET_COPY(master)` (lines
828-831); an existing device copy ends the flow (line 834); otherwise a
block is obtained (`allocBlock`); exhaustion yields the RESCHEDULE state
(undo push of `temp_loc[j]`, `j < i`, lines 856-860); success wraps a fresh
INVALID version-0 copy, attaches it, records it in `data_out` and
`temp_loc[i]`, and fifo-pushes it onto the free LRU (lines 912-921).
`.inl` = continue with the next flow, `.inr` = return RESCHEDULE.
`reserveInitFlow` is the flow prologue of lines 828-831:
`temp_loc[i] = NULL; data_out = DAGUE_DATA_GET_COPY(master)`. -/
def reserveInitFlow (i : ℕ) (g : Option RCopy) (s : RState) : RState :=
  { s with temp := fun j => if j = i then none else s.temp j,
           dataOut := fun j => if j = i then g else s.dataOut j }

/-- The fresh copy wrapped around a newly obtained block (lines 837, 912-916):
`OBJ_NEW` copy, `readers` 0, coherency INVALID, version 0, attached to the
flow's master. -/
def freshCopy (master nextId : ℕ) : RCopy :=
  { id := nextId, readers := 0, original := master, coherency := .invalid, version := 0 }

/-- The continue-state after a successful allocation for flow `i` (lines
912-921): attach the fresh copy, set `data_out` and `temp_loc[i]`, and
fifo-push it onto the free LRU. -/
def reserveAttach (f : RFlow) (i : ℕ) (s1 : RState) : RState :=
  { s1 with
    nextId := s1.nextId + 1,
    copies := fun m => if m = f.master then some (freshCopy f.master s1.nextId) else s1.copies m,
    dataOut := fun j => if j = i then some (freshCopy f.master s1.nextId) else s1.dataOut j,
    temp := fun j => if j = i then some (freshCopy f.master s1.nextId) else s1.temp j,
    freeLru := s1.freeLru ++ [freshCopy f.master s1.nextId] }

def reserveOne (taskMasters : List ℕ) (f : RFlow) (i : ℕ) (s : RState) :
    Sum RState RState :=
  match s.copies f.master with
  | some c => .inl (reserveInitFlow i (some c) s)
  | none =>
    match allocBlock taskMasters (reserveInitFlow i none s) with
    | (s1, false) => .inr { s1 with freeLru := undoPush s1.temp i s1.freeLru }
    | (s1, true) => .inl (reserveAttach f i s1)

/-- The per-flow loop of `dague_gpu_data_reserve_device_space` (lines
821-923): CTL flows are skipped without touching `temp_loc[i]` (line 826);
a RESCHEDULE from any flow ends the call with -2, otherwise it returns 0. -/
def reserveGo (taskMasters : List ℕ) : List RFlow → ℕ → RState → RState × ℤ
  | [], _, s => (s, 0)
  | f :: rest, i, s =>
    if f.isCtl then reserveGo taskMasters rest (i + 1) s
    else
      match reserveOne taskMasters f i s with
      | .inl s2 => reserveGo taskMasters rest (i + 1) s2
      | .inr s2 => (s2, -2)

/-- `dague_gpu_data_reserve_device_space` (lines 807-924).  The own-data
check of lines 886-892 scans the datum of every flow with a non-NULL
`data_in`, i.e. every non-CTL flow. -/
def dague_gpu_data_reserve_device_space (flows : List RFlow) (s : RState) : RState × ℤ :=
  reserveGo ((flows.filter (fun f => !f.isCtl)).map (fun f => f.master)) flows 0 s

/-! ### Reservation lemmas -/

theorem undoPush_succ (temp : ℕ → Option RCopy) (i : ℕ) (lru : List RCopy) :
    undoPush temp (i + 1) lru
      = (match temp i with
         | some r => r :: undoPush temp i lru
         | none => undoPush temp i lru) := by
  unfold undoPush
  rw [List.range_succ, List.foldl_append, List.foldl_cons, List.foldl_nil]

theorem undoPush_mem (temp : ℕ → Option RCopy) (lru : List RCopy) :
    ∀ i j r, j < i → temp j = some r → r ∈ undoPush temp i lru := by
  intro i
  induction i with
  | zero => intro j r hj _; omega
  | succ n ih =>
    intro j r hj hr
    rw [undoPush_succ]
    by_cases hji : j = n
    · subst hji
      rw [hr]
      exact List.mem_cons_self r _
    · have hlt : j < n := by omega
      have hmem := ih j r hlt hr
      cases htn : temp n with
      | none => simpa using hmem
      | some x => simp only []; exact List.mem_cons_of_mem x hmem

theorem evictLoop_chosen (tm : List ℕ) :
    ∀ l v rest, (evictLoop tm l).1 = some (v, rest) →
      v.readers = 0 ∧ v.original ∉ tm := by
  intro l
  induction l with
  | nil => intro v rest h; simp [evictLoop] at h
  | cons x xs ih =>
    intro v rest h
    by_cases h1 : x.readers ≠ 0
    · rw [evictLoop, if_pos h1] at h
      exact ih v rest h
    · by_cases h2 : x.original ∈ tm
      · rw [evictLoop, if_neg h1, if_pos h2] at h
        exact ih v rest h
      · rw [evictLoop, if_neg h1, if_neg h2] at h
        simp only [Option.some.injEq, Prod.mk.injEq] at h
        obtain ⟨rfl, _⟩ := h
        exact ⟨not_not.mp h1, h2⟩

theorem allocBlock_temp (tm : List ℕ) (s : RState) :
    (allocBlock tm s).1.temp = s.temp ∧
    (allocBlock tm s).1.dataOut = s.dataOut ∧
    (allocBlock tm s).1.nextId = s.nextId := by
  unfold allocBlock
  split
  · exact ⟨rfl, rfl, rfl⟩
  · split
    · exact ⟨rfl, rfl, rfl⟩
    · exact ⟨rfl, rfl, rfl⟩

theorem allocBlock_detached (tm : List ℕ) (s : RState) :
    ∀ v ∈ (allocBlock tm s).1.detached, v ∈ s.detached ∨ v.readers = 0 := by
  intro v hv
  unfold allocBlock at hv
  split at hv
  · exact Or.inl hv
  · split at hv
    · exact Or.inl hv
    · next v' rest dropped heq =>
      simp only [List.mem_append, List.mem_singleton] at hv
      rcases hv with hv | hv
      · exact Or.inl hv
      · subst hv
        exact Or.inr (evictLoop_chosen tm s.freeLru v rest (by rw [heq])).1

theorem reserveOne_trichotomy (tm : List ℕ) (f : RFlow) (i : ℕ) (s : RState) :
    (∃ c, s.copies f.master = some c ∧
      reserveOne tm f i s = .inl (reserveInitFlow i (some c) s)) ∨
    (∃ s1, s.copies f.master = none ∧
      allocBlock tm (reserveInitFlow i none s) = (s1, false) ∧
      reserveOne tm f i s = .inr { s1 with freeLru := undoPush s1.temp i s1.freeLru }) ∨
    (∃ s1, s.copies f.master = none ∧
      allocBlock tm (reserveInitFlow i none s) = (s1, true) ∧
      reserveOne tm f i s = .inl (reserveAttach f i s1)) := by
  unfold reserveOne
  cases hg : s.copies f.master with
  | some c => exact Or.inl ⟨c, rfl, rfl⟩
  | none =>
    cases hab : allocBlock tm (reserveInitFlow i none s) with
    | mk s1 b =>
      cases b
      · exact Or.inr (Or.inl ⟨s1, rfl, rfl, rfl⟩)
      · exact Or.inr (Or.inr ⟨s1, rfl, rfl, rfl⟩)

theorem reserveGo_rc (tm : List ℕ) :
    ∀ flows i s, (reserveGo tm flows i s).2 = 0 ∨ (reserveGo tm flows i s).2 = -2 := by
  intro flows
  induction flows with
  | nil => intro i s; exact Or.inl rfl
  | cons f rest ih =>
    intro i s
    simp only [reserveGo]
    by_cases hc : f.isCtl = true
    · simp only [hc, if_true]
      exact ih (i + 1) s
    · simp only [hc, if_false]
      rcases reserveOne_trichotomy tm f i s with ⟨c, _, hr⟩ | ⟨s1, _, _, hr⟩ | ⟨s1, _, _, hr⟩
      · rw [hr]; exact ih (i + 1) _
      · rw [hr]; exact Or.inr rfl
      · rw [hr]; exact ih (i + 1) _

theorem reserveGo_resched_mem (tm : List ℕ) :
    ∀ flows i s, (∀ j, i ≤ j → s.temp j = none) →
      (reserveGo tm flows i s).2 = -2 →
      ∀ j r, (reserveGo tm flows i s).1.temp j = some r →
        r ∈ (reserveGo tm flows i s).1.freeLru := by
  intro flows
  induction flows with
  | nil =>
    intro i s _ hrc
    simp only [reserveGo] at hrc
    omega
  | cons f rest ih =>
    intro i s hinv hrc j r htemp
    simp only [reserveGo] at hrc htemp ⊢
    by_cases hc : f.isCtl = true
    · simp only [hc, if_true] at hrc htemp ⊢
      exact ih (i + 1) s (fun j hj => hinv j (by omega)) hrc j r htemp
    · simp only [hc, if_false] at hrc htemp ⊢
      rcases reserveOne_trichotomy tm f i s with ⟨c, _, hr⟩ | ⟨s1, _, hab, hr⟩ | ⟨s1, _, hab, hr⟩
      · rw [hr] at hrc htemp ⊢
        refine ih (i + 1) _ ?_ hrc j r htemp
        intro j' hj'
        simp only [reserveInitFlow]
        rw [if_neg (by omega)]
        exact hinv j' (by omega)
      · rw [hr] at hrc htemp ⊢
        have htemp' : s1.temp j = some r := htemp
        have hs1temp : s1.temp = (reserveInitFlow i none s).temp := by
          have h := (allocBlock_temp tm (reserveInitFlow i none s)).1
          rw [hab] at h
          exact h
        have hjlt : j < i := by
          by_contra hge
          have hnone : s1.temp j = none := by
            rw [hs1temp]
            simp only [reserveInitFlow]
            by_cases hji : j = i
            · rw [if_pos hji]
            · rw [if_neg hji]
              exact hinv j (by omega)
          rw [hnone] at htemp'
          exact Option.noConfusion htemp'
        exact undoPush_mem s1.temp s1.freeLru i j r hjlt htemp'
      · rw [hr] at hrc htemp ⊢
        have hs1temp : s1.temp = (reserveInitFlow i none s).temp := by
          have h := (allocBlock_temp tm (reserveInitFlow i none s)).1
          rw [hab] at h
          exact h
        refine ih (i + 1) _ ?_ hrc j r htemp
        intro j' hj'
        simp only [reserveAttach]
        rw [if_neg (by omega), hs1temp]
        simp only [reserveInitFlow]
        rw [if_neg (by omega)]
        exact hinv j' (by omega)

theorem reserveGo_dataOut_low (tm : List ℕ) :
    ∀ flows i s j, j < i →
      (reserveGo tm flows i s).1.dataOut j = s.dataOut j := by
  intro flows
  induction flows with
  | nil => intro i s j _; rfl
  | cons f rest ih =>
    intro i s j hj
    by_cases hc : f.isCtl = true
    · have hstep : reserveGo tm (f :: rest) i s = reserveGo tm rest (i + 1) s := by
        simp [reserveGo, hc]
      rw [hstep]
      exact ih (i + 1) s j (by omega)
    · rcases reserveOne_trichotomy tm f i s with ⟨c, _, hr⟩ | ⟨s1, _, hab, hr⟩ | ⟨s1, _, hab, hr⟩
      · have hstep : reserveGo tm (f :: rest) i s
            = reserveGo tm rest (i + 1) (reserveInitFlow i (some c) s) := by
          simp [reserveGo, hc, hr]
        rw [hstep, ih (i + 1) (reserveInitFlow i (some c) s) j (by omega)]
        simp only [reserveInitFlow]
        rw [if_neg (by omega)]
      · have hstep : reserveGo tm (f :: rest) i s
            = ({ s1 with freeLru := undoPush s1.temp i s1.freeLru }, -2) := by
          simp [reserveGo, hc, hr]
        rw [hstep]
        show s1.dataOut j = s.dataOut j
        have h := (allocBlock_temp tm (reserveInitFlow i none s)).2.1
        rw [hab] at h
        rw [h]
        simp only [reserveInitFlow]
        rw [if_neg (by omega)]
      · have hstep : reserveGo tm (f :: rest) i s
            = reserveGo tm rest (i + 1) (reserveAttach f i s1) := by
          simp [reserveGo, hc, hr]
        rw [hstep, ih (i + 1) (reserveAttach f i s1) j (by omega)]
        simp only [reserveAttach]
        rw [if_neg (by omega)]
        have h2 := (allocBlock_temp tm (reserveInitFlow i none s)).2.1
        rw [hab] at h2
        rw [h2]
        simp only [reserveInitFlow]
        rw [if_neg (by omega)]

theorem reserveGo_success_dataOut (tm : List ℕ) :
    ∀ flows i s, (reserveGo tm flows i s).2 = 0 →
      ∀ p (hp : p < flows.length), (flows.get ⟨p, hp⟩).isCtl = false →
        (reserveGo tm flows i s).1.dataOut (i + p) ≠ none := by
  intro flows
  induction flows with
  | nil =>
    intro i s _ p hp
    exact absurd hp (by simp)
  | cons f rest ih =>
    intro i s hrc p hp hctl
    by_cases hc : f.isCtl = true
    · have hstep : reserveGo tm (f :: rest) i s = reserveGo tm rest (i + 1) s := by
        simp [reserveGo, hc]
      rw [hstep] at hrc ⊢
      cases p with
      | zero =>
        simp only [List.get] at hctl
        rw [hctl] at hc
        exact absurd hc (by simp)
      | succ p' =>
        have hp' : p' < rest.length := by simpa using hp
        have harith : i + (p' + 1) = (i + 1) + p' := by omega
        rw [harith]
        exact ih (i + 1) s hrc p' hp' (by simpa [List.get] using hctl)
    · rcases reserveOne_trichotomy tm f i s with ⟨c, _, hr⟩ | ⟨s1, _, hab, hr⟩ | ⟨s1, _, hab, hr⟩
      · have hstep : reserveGo tm (f :: rest) i s
            = reserveGo tm rest (i + 1) (reserveInitFlow i (some c) s) := by
          simp [reserveGo, hc, hr]
        rw [hstep] at hrc ⊢
        cases p with
        | zero =>
          simp only [Nat.add_zero]
          rw [reserveGo_dataOut_low tm rest (i + 1) (reserveInitFlow i (some c) s) i (by omega)]
          simp [reserveInitFlow]
        | succ p' =>
          have hp' : p' < rest.length := by simpa using hp
          have harith : i + (p' + 1) = (i + 1) + p' := by omega
          rw [harith]
          exact ih (i + 1) _ hrc p' hp' (by simpa [List.get] using hctl)
      · have hstep : reserveGo tm (f :: rest) i s
            = ({ s1 with freeLru := undoPush s1.temp i s1.freeLru }, -2) := by
          simp [reserveGo, hc, hr]
        rw [hstep] at hrc
        exact absurd hrc (by norm_num)
      · have hstep : reserveGo tm (f :: rest) i s
            = reserveGo tm rest (i + 1) (reserveAttach f i s1) := by
          simp [reserveGo, hc, hr]
        rw [hstep] at hrc ⊢
        cases p with
        | zero =>
          simp only [Nat.add_zero]
          rw [reserveGo_dataOut_low tm rest (i + 1) (reserveAttach f i s1) i (by omega)]
          simp [reserveAttach]
        | succ p' =>
          have hp' : p' < rest.length := by simpa using hp
          have harith : i + (p' + 1) = (i + 1) + p' := by omega
          rw [harith]
          exact ih (i + 1) _ hrc p' hp' (by simpa [List.get] using hctl)

theorem reserveGo_detached (tm : List ℕ) :
    ∀ flows i s, ∀ v ∈ (reserveGo tm flows i s).1.detached,
      v ∈ s.detached ∨ v.readers = 0 := by
  intro flows
  induction flows with
  | nil => intro i s v hv; exact Or.inl hv
  | cons f rest ih =>
    intro i s v hv
    by_cases hc : f.isCtl = true
    · have hstep : reserveGo tm (f :: rest) i s = reserveGo tm rest (i + 1) s := by
        simp [reserveGo, hc]
      rw [hstep] at hv
      exact ih (i + 1) s v hv
    · rcases reserveOne_trichotomy tm f i s with ⟨c, _, hr⟩ | ⟨s1, _, hab, hr⟩ | ⟨s1, _, hab, hr⟩
      · have hstep : reserveGo tm (f :: rest) i s
            = reserveGo tm rest (i + 1) (reserveInitFlow i (some c) s) := by
          simp [reserveGo, hc, hr]
        rw [hstep] at hv
        rcases ih (i + 1) (reserveInitFlow i (some c) s) v hv with h | h
        · exact Or.inl h
        · exact Or.inr h
      · have hstep : reserveGo tm (f :: rest) i s
            = ({ s1 with freeLru := undoPush s1.temp i s1.freeLru }, -2) := by
          simp [reserveGo, hc, hr]
        rw [hstep] at hv
        have hv' : v ∈ s1.detached := hv
        exact allocBlock_detached tm (reserveInitFlow i none s) v (by rw [hab]; exact hv')
      · have hstep : reserveGo tm (f :: rest) i s
            = reserveGo tm rest (i + 1) (reserveAttach f i s1) := by
          simp [reserveGo, hc, hr]
        rw [hstep] at hv
        rcases ih (i + 1) _ v hv with h | h
        · have hv' : v ∈ s1.detached := h
          exact allocBlock_detached tm (reserveInitFlow i none s) v (by rw [hab]; exact hv')
        · exact Or.inr h

/-- **C3 (confirmed).** For every reservation call: the result is 0 or
RESCHEDULE (-2); when the free LRU is exhausted before all non-CTL flows
obtain a device replica, every replica the call repurposed (each replica
recorded in `temp_loc` during this call — the call starts with `temp_loc`
contents none, matching a run in which the claim's "repurposed during this
call" set is exactly the written slots) is back on the free LRU of the
returned state; and a 0 return has `data_out` set to a device replica for
every non-CTL flow (no partial allocation survives a RESCHEDULE: everything
this call took is pushed back for other tasks to pick up). -/
theorem reserve_atomicity (flows : List RFlow) (s : RState)
    (htemp : ∀ j, s.temp j = none) :
    ((dague_gpu_data_reserve_device_space flows s).2 = 0 ∨
      (dague_gpu_data_reserve_device_space flows s).2 = -2) ∧
    ((dague_gpu_data_reserve_device_space flows s).2 = -2 →
      ∀ j r, (dague_gpu_data_reserve_device_space flows s).1.temp j = some r →
        r ∈ (dague_gpu_data_reserve_device_space flows s).1.freeLru) ∧
    ((dague_gpu_data_reserve_device_space flows s).2 = 0 →
      ∀ p (hp : p < flows.length), (flows.get ⟨p, hp⟩).isCtl = false →
        (dague_gpu_data_reserve_device_space flows s).1.dataOut p ≠ none) := by
  unfold dague_gpu_data_reserve_device_space
  refine ⟨reserveGo_rc _ flows 0 s, ?_, ?_⟩
  · intro hrc j r ht
    exact reserveGo_resched_mem _ flows 0 s (fun j _ => htemp j) hrc j r ht
  · intro hrc p hp hctl
    have h := reserveGo_success_dataOut _ flows 0 s hrc p hp hctl
    simpa using h

/-- Initial state for the `reserve_atomicity` witness: empty free LRU, one
free zone block, no device copies. -/
def c3State : RState :=
  { freeLru := [], zoneFree := 1, copies := fun _ => none, dataOut := fun _ => none,
    temp := fun _ => none, nextId := 0, detached := [], dropped := [] }

/-- Witness for `reserve_atomicity`: one non-CTL flow on a device with a
free block. -/
theorem reserve_atomicity_witness :
    (∀ j, c3State.temp j = none) ∧
    (((dague_gpu_data_reserve_device_space [⟨false, 5⟩] c3State).2 = 0 ∨
      (dague_gpu_data_reserve_device_space [⟨false, 5⟩] c3State).2 = -2) ∧
    ((dague_gpu_data_reserve_device_space [⟨false, 5⟩] c3State).2 = -2 →
      ∀ j r, (dague_gpu_data_reserve_device_space [⟨false, 5⟩] c3State).1.temp j = some r →
        r ∈ (dague_gpu_data_reserve_device_space [⟨false, 5⟩] c3State).1.freeLru) ∧
    ((dague_gpu_data_reserve_device_space [⟨false, 5⟩] c3State).2 = 0 →
      ∀ p (hp : p < ([⟨false, 5⟩] : List RFlow).length),
        (([⟨false, 5⟩] : List RFlow).get ⟨p, hp⟩).isCtl = false →
        (dague_gpu_data_reserve_device_space [⟨false, 5⟩] c3State).1.dataOut p ≠ none)) :=
  ⟨fun _ => rfl, reserve_atomicity [⟨false, 5⟩] c3State (fun _ => rfl)⟩

/-- The head victim of the C4 counterexample: one active reader. -/
def c4VictimA : RCopy := ⟨1, 1, 10, .shared, 3⟩

/-- The second victim of the C4 counterexample: no readers, evictable. -/
def c4VictimB : RCopy := ⟨2, 0, 11, .shared, 3⟩

/-- Initial state for the C4 counterexample: the free LRU holds the
reader-pinned `c4VictimA` at its head and the evictable `c4VictimB`; the
zone allocator is out of blocks. -/
def c4State : RState :=
  { freeLru := [c4VictimA, c4VictimB], zoneFree := 0,
    copies := fun m => if m = 10 then some c4VictimA
              else if m = 11 then some c4VictimB else none,
    dataOut := fun _ => none, temp := fun _ => none, nextId := 100,
    detached := [], dropped := [] }

/-- **C4 (counterexample).** A reservation for one flow on datum 5, with the
free LRU `[A (readers 1), B (readers 0)]` and no free blocks: the call pops
`A`, which fails the `readers == 0` test, and — contrary to the claim — does
*not* push it back to the head of the free LRU: the `goto find_another_data`
at line 878 just drops it.  The call succeeds by evicting `B`, and at the
end `A` is on no LRU at all even though it was never repurposed: a single
reservation call removed a replica with `readers > 0` from the LRU set. -/
theorem reserve_victim_dropped_cex :
    (dague_gpu_data_reserve_device_space [⟨false, 5⟩] c4State).2 = 0 ∧
    c4VictimA ∉ (dague_gpu_data_reserve_device_space [⟨false, 5⟩] c4State).1.freeLru ∧
    c4VictimA ∈ (dague_gpu_data_reserve_device_space [⟨false, 5⟩] c4State).1.dropped ∧
    c4VictimA.readers ≠ 0 ∧
    (dague_gpu_data_reserve_device_space [⟨false, 5⟩] c4State).1.detached = [c4VictimB] ∧
    (dague_gpu_data_reserve_device_space [⟨false, 5⟩] c4State).1.freeLru
      = [freshCopy 5 100] := by
  refine ⟨by decide, by decide, by decide, by decide, by decide, by decide⟩

/-- **C4 (amended).** During eviction, a victim popped from the free LRU
that fails the `readers == 0` test is dropped — left out of the free LRU as
an unlinked singleton, not pushed back before the next victim is examined
(it is re-inserted only later, by `dague_gpu_kernel_pop`, when its reader
count drops to zero) — and it is never chosen for repurposing: every replica
the reservation call actually detaches and repurposes has `readers == 0`.
Consequently a reservation call *can* remove a replica with `readers > 0`
from the LRU set. -/
theorem reserve_detached_readers (flows : List RFlow) (s : RState)
    (hdet : s.detached = []) :
    ∀ v ∈ (dague_gpu_data_reserve_device_space flows s).1.detached, v.readers = 0 := by
  intro v hv
  rcases reserveGo_detached _ flows 0 s v hv with h | h
  · rw [hdet] at h
    exact absurd h (List.not_mem_nil v)
  · exact h

/-- Witness for `reserve_detached_readers` at the concrete C4 state. -/
theorem reserve_detached_readers_witness :
    c4State.detached = [] ∧
    ∀ v ∈ (dague_gpu_data_reserve_device_space [⟨false, 5⟩] c4State).1.detached,
      v.readers = 0 :=
  ⟨rfl, reserve_detached_readers [⟨false, 5⟩] c4State rfl⟩
